import Mathlib

/-!
# Verification of the vehicle auto-tagging service (`src/app.py`)

This file gives a shallow embedding of the core of the repository
`print-alex/autotag-shop` — the Flask webhook service in `src/app.py` —
and proves or refutes the frozen claims about it.

Embedded components (names follow the Python source):

* `normalize_text`  — `src/app.py` lines 49-53
* `extract_vehicle_data` — `src/app.py` lines 55-102 (regular-expression
  primary pass plus word-scan fallback pass)
* `get_vehicle_tags` — `src/app.py` lines 104-139 (required-field guard,
  case-insensitive catalog lookup via SQL `ilike`, tag composition)
* `handle_product_create` — `src/app.py` lines 216-263 (the webhook route)

Modelling conventions:

* Python strings are `String` (lists of `Char`); the ASCII fragments of
  Python's `\w`, `\s`, `str.lower` and `str.strip` are modelled explicitly
  (`isWordChar`, `isPySpace`, `lowerC`, `pyStrip`) — the titles, patterns
  and catalog rows of the source are ASCII.
* `None`/absent values are `Option`; Python truthiness on optional strings
  is `isTruthy` (`None` and `""` are falsy).
* Exceptions escaping the catalog query are `Except Unit`; the catalog
  itself is a `List Vehicle` in table order (`.first()` = `List.find?`).
* Python `set` semantics are modelled by insertion with deduplication
  (`addTag`), which realises the same set of members deterministically.
* Regular-expression search is a small backtracking engine (`Mt` matchers)
  with Python semantics: leftmost match, alternatives tried left to right,
  greedy quantifiers, `\b` word boundaries, optional `re.IGNORECASE`.
-/

/-! ## Character-level model of Python's ASCII `\w`, `\s`, `lower` -/

/-- Python's `\w` (word character) on the ASCII range: letters, digits and
underscore.  `re.sub(r'\W+', ...)` collapses exactly the non-`\w` runs. -/
def isWordChar (c : Char) : Bool :=
  c.isAlphanum || c == '_'

/-- Python's `\s` / `str.strip` whitespace on the ASCII range. -/
def isPySpace (c : Char) : Bool :=
  c == ' ' || c == '\t' || c == '\n' || c == '\r' || c == '\x0b' || c == '\x0c'

/-- Python's `str.lower` on the ASCII range, as an explicit letter table. -/
def lowerC : Char → Char
  | 'A' => 'a' | 'B' => 'b' | 'C' => 'c' | 'D' => 'd' | 'E' => 'e'
  | 'F' => 'f' | 'G' => 'g' | 'H' => 'h' | 'I' => 'i' | 'J' => 'j'
  | 'K' => 'k' | 'L' => 'l' | 'M' => 'm' | 'N' => 'n' | 'O' => 'o'
  | 'P' => 'p' | 'Q' => 'q' | 'R' => 'r' | 'S' => 's' | 'T' => 't'
  | 'U' => 'u' | 'V' => 'v' | 'W' => 'w' | 'X' => 'x' | 'Y' => 'y'
  | 'Z' => 'z'
  | c => c

/-! ## `normalize_text` (src/app.py lines 49-53)

```python
def normalize_text(text):
    if not text:
        return None
    return re.sub(r'\W+', ' ', text).strip().lower()
```
-/

/-- Worker for `re.sub(r'\W+', ' ', ·)`.  The flag records whether the
scanner is inside a non-word run whose replacement space was already
emitted, so each maximal non-word run produces exactly one space. -/
def collapseGo : Bool → List Char → List Char
  | _, [] => []
  | inRun, c :: cs =>
    if isWordChar c then c :: collapseGo false cs
    else if inRun then collapseGo true cs
    else ' ' :: collapseGo true cs

/-- The `re.sub(r'\W+', ' ', ·)`: replace every maximal run of non-word
characters by a single space. -/
def collapseL (l : List Char) : List Char :=
  collapseGo false l

/-- The `str.strip()`: drop leading and trailing whitespace. -/
def pyStrip (l : List Char) : List Char :=
  ((l.dropWhile isPySpace).reverse.dropWhile isPySpace).reverse

/-- The string transformation of `normalize_text` on a non-falsy input:
`re.sub(r'\W+', ' ', s).strip().lower()`. -/
def normStr (s : String) : String :=
  ⟨(pyStrip (collapseL s.data)).map lowerC⟩

/-- The `normalize_text` itself; the argument may be `None` and the Python
function returns `None` for any falsy input (`None` or `""`). -/
def normalize_text : Option String → Option String
  | none => none
  | some s => if s.data.isEmpty then none else some (normStr s)

/-! ## Specification-side restatements of the normalizer

`normSpec` renders the spec's description independently of `re.sub`:
take the maximal word-character runs of the input, join them with single
spaces, and lowercase.  `claimNormalize` renders the claim's literal
wording, which collapses runs of non-**alphanumeric** characters (treating
the underscore as a separator, unlike the source's `\W`). -/

/-- The maximal runs of word characters of a string, in order. -/
def wordRuns : List Char → List (List Char)
  | [] => []
  | c :: cs =>
    if isWordChar c then
      ((c :: cs).takeWhile isWordChar) :: wordRuns ((c :: cs).dropWhile isWordChar)
    else
      wordRuns cs
termination_by l => l.length
decreasing_by
  · rename_i h
    simp only [List.dropWhile_cons_of_pos h, List.length_cons]
    exact Nat.lt_succ_of_le (List.dropWhile_sublist _).length_le
  · simp [Nat.lt_succ_self]

/-- Join character runs with single spaces. -/
def joinSp : List (List Char) → List Char
  | [] => []
  | [t] => t
  | t :: ts => t ++ ' ' :: joinSp ts

/-- Spec-side normal form: lowercased word runs joined by single spaces. -/
def normSpec (s : String) : String :=
  ⟨(joinSp (wordRuns s.data)).map lowerC⟩

/-- The claim's literal transformation: runs of non-**alphanumeric**
characters (the underscore included) collapsed to a single space. -/
def collapseAlnumGo : Bool → List Char → List Char
  | _, [] => []
  | inRun, c :: cs =>
    if c.isAlphanum then c :: collapseAlnumGo false cs
    else if inRun then collapseAlnumGo true cs
    else ' ' :: collapseAlnumGo true cs

/-- The claim's literal description of `normalize` on a non-empty input. -/
def claimNormalize (s : String) : String :=
  ⟨(pyStrip (collapseAlnumGo false s.data)).map lowerC⟩

/-! ## A small backtracking regular-expression engine

Matchers work on a fixed character list `s` at a position `i` and call a
continuation on the end position of each candidate sub-match, in exactly
the order Python's `re` backtracking explores them: alternatives left to
right, quantifiers greedy (longest first).  `Option.orElse` keeps the
first success, so a whole match reproduces Python's leftmost /
first-alternative / greedy semantics. -/

/-- A matcher: input characters, start position, continuation on the end
position of a candidate match. -/
abbrev Mt := List Char → Nat → (Nat → Option Nat) → Option Nat

/-- Case-insensitive (ASCII, as `re.IGNORECASE`) or exact character test. -/
def charMatch (ci : Bool) (c d : Char) : Bool :=
  if ci then lowerC c == lowerC d else c == d

/-- Match a literal word starting at `i`; answers the end position. -/
def litAt (ci : Bool) (s : List Char) : List Char → Nat → Option Nat
  | [], i => some i
  | c :: cs, i =>
    match s.get? i with
    | some d => if charMatch ci c d then litAt ci s cs (i + 1) else none
    | none => none

/-- Literal-string matcher (the `ci` flag is `re.IGNORECASE`). -/
def mLit (ci : Bool) (w : String) : Mt :=
  fun s i k => (litAt ci s w.data i).bind k

/-- Alternation: try the alternatives in the given order. -/
def mAlt (ms : List Mt) : Mt :=
  fun s i k => ms.foldr (fun m acc => m s i k <|> acc) none

/-- Sequencing of matchers via continuation chaining. -/
def mSeq (ms : List Mt) : Mt :=
  fun s i k => (ms.foldr (fun m acc => fun j => m s j acc) k) i

/-- The `?` (greedy): try to consume, then try the empty match. -/
def mOpt (m : Mt) : Mt :=
  fun s i k => m s i k <|> k i

/-- Single character of a class. -/
def mClass (p : Char → Bool) : Mt :=
  fun s i k =>
    match s.get? i with
    | some c => if p c then k (i + 1) else none
    | none => none

/-- Is the character at position `i` a word character? -/
def isWordAt (s : List Char) (i : Nat) : Bool :=
  match s.get? i with
  | some c => isWordChar c
  | none => false

/-- Python's `\b`: word-ness changes between the previous and the current
position (positions before the start and past the end are non-word). -/
def atBoundary (s : List Char) (i : Nat) : Bool :=
  (match i with
   | 0 => false
   | Nat.succ j => isWordAt s j) != isWordAt s i

/-- The `\b` matcher: consumes nothing. -/
def mBound : Mt :=
  fun s i k => if atBoundary s i then k i else none

/-- Try continuation at `i + n`, `i + n - 1`, …, `i` (greedy order). -/
def tryFrom (k : Nat → Option Nat) (i : Nat) : Nat → Option Nat
  | 0 => k i
  | Nat.succ m => k (i + Nat.succ m) <|> tryFrom k i m

/-- The `[class]*` (greedy): longest run first, then backtrack. -/
def mClassStar (p : Char → Bool) : Mt :=
  fun s i k => tryFrom k i (((s.drop i).takeWhile p).length)

/-- The `[class]+` (greedy). -/
def mClassPlus (p : Char → Bool) : Mt :=
  fun s i k =>
    match s.get? i with
    | some c => if p c then mClassStar p s (i + 1) k else none
    | none => none

/-- The `re.search` scan: try each start position from the left; `fuel` bounds
the remaining start positions. -/
def searchFrom (m : Mt) (s : List Char) : Nat → Nat → Option (Nat × Nat)
  | i, fuel =>
    match m s i some with
    | some j => some (i, j)
    | none =>
      match fuel with
      | 0 => none
      | Nat.succ f => searchFrom m s (i + 1) f

/-- The `re.search(pattern, title, flags).group(0)`: the first (leftmost)
match of the pattern, as a string. -/
def reSearch (m : Mt) (s : String) : Option String :=
  (searchFrom m s.data 0 s.data.length).map
    (fun ij => ⟨(s.data.drop ij.1).take (ij.2 - ij.1)⟩)

/-! ## The configured patterns (src/app.py lines 66-73) -/

/-- Digit class `\d`. -/
def isDigitC (c : Char) : Bool := c.isDigit

/-- ASCII letter class `[A-Za-z]`. -/
def isAsciiLetter (c : Char) : Bool :=
  ('A' ≤ c && c ≤ 'Z') || ('a' ≤ c && c ≤ 'z')

/-- The `[A-Z]` under `re.IGNORECASE` (any ASCII letter), plus digits: the
class `[A-Z0-9]` as the primary patterns use it. -/
def isAlnumCI (c : Char) : Bool := isAsciiLetter c || c.isDigit

/-- The `[A-Z0-9]` without `re.IGNORECASE` (the fallback shape tests). -/
def isUpperDigit (c : Char) : Bool :=
  ('A' ≤ c && c ≤ 'Z') || c.isDigit

/-- Case-insensitive membership in a (lowercase) character list. -/
def ciIn (cs : List Char) (c : Char) : Bool := cs.contains (lowerC c)

/-- The brand alternatives of `patterns['brand']`. -/
def brandAlts : List String :=
  ["BMW", "Audi", "VW", "Volkswagen", "Ford", "Opel", "Dacia", "Mercedes",
   "Toyota", "Honda", "Peugeot", "Renault", "Skoda", "Seat", "Hyundai",
   "Kia", "Nissan", "Mitsubishi", "Lexus", "Chevrolet", "Porsche", "Volvo",
   "Citroen", "Mazda", "Subaru", "Jeep", "Land Rover"]

/-- The model alternatives of `patterns['model']`. -/
def modelAlts : List String :=
  ["3 Series", "5 Series", "E90", "E46", "E39", "E60", "E36", "Golf", "A4",
   "A6", "A3", "Focus", "Duster", "Astra", "C-Class", "E-Class", "S-Class",
   "Corolla", "Civic", "Clio", "Megane", "Octavia", "Ibiza", "Tucson",
   "Sportage", "Skyline", "Supra", "RX", "Camry", "Accord", "Fiesta",
   "Passat", "Leon", "Fabia", "Kona", "Santa Fe", "Outlander", "Impreza",
   "Wrangler", "Range Rover"]

/-- The engine-code alternatives of `patterns['engine_code']`. -/
def engineCodeAlts : List String :=
  ["N47", "BKC", "CAGA", "K9K", "CDNA", "OM642", "K4M", "EA888", "M54",
   "M62", "B58", "S55", "4JJ1", "1KD", "2JZ", "RB26"]

/-- The `patterns['brand']`: `\b(BMW|Audi|…|Land Rover)\b`, `re.IGNORECASE`. -/
def brandPat : Mt :=
  mSeq [mBound, mAlt (brandAlts.map (mLit true)), mBound]

/-- The `patterns['model']`: `\b(3 Series|…|Range Rover)\b`, `re.IGNORECASE`. -/
def modelPat : Mt :=
  mSeq [mBound, mAlt (modelAlts.map (mLit true)), mBound]

/-- The `patterns['generation']`: `\b(MK[IVXLCDM]+|B\d+|G\d+|W\d+|F\d+|E\d+)\b`. -/
def generationPat : Mt :=
  mSeq [mBound,
        mAlt [mSeq [mLit true "MK", mClassPlus (ciIn ['i','v','x','l','c','d','m'])],
              mSeq [mLit true "B", mClassPlus isDigitC],
              mSeq [mLit true "G", mClassPlus isDigitC],
              mSeq [mLit true "W", mClassPlus isDigitC],
              mSeq [mLit true "F", mClassPlus isDigitC],
              mSeq [mLit true "E", mClassPlus isDigitC]],
        mBound]

/-- The `patterns['engine']`:
`\b(\d+\.\d+\s*(TFSI|TSI|TDI|HDi|dCi|[TLS]?[FS]?I)?)\b`, `re.IGNORECASE`. -/
def enginePat : Mt :=
  mSeq [mBound, mClassPlus isDigitC, mLit false ".", mClassPlus isDigitC,
        mClassStar isPySpace,
        mOpt (mAlt [mLit true "TFSI", mLit true "TSI", mLit true "TDI",
                    mLit true "HDi", mLit true "dCi",
                    mSeq [mOpt (mClass (ciIn ['t','l','s'])),
                          mOpt (mClass (ciIn ['f','s'])),
                          mLit true "I"]]),
        mBound]

/-- The `patterns['engine_code']`: `\b(N47|…|RB26)\b`, `re.IGNORECASE`. -/
def engineCodePat : Mt :=
  mSeq [mBound, mAlt (engineCodeAlts.map (mLit true)), mBound]

/-- The `patterns['type']`:
`\b(E90 320d|E90 325i|B8 2\.0 TDI|W204 220 CDI|[A-Z0-9]+\s*\d+\.\d+[A-Za-z]*)\b`,
`re.IGNORECASE`. -/
def typePat : Mt :=
  mSeq [mBound,
        mAlt [mLit true "E90 320d", mLit true "E90 325i",
              mLit true "B8 2.0 TDI", mLit true "W204 220 CDI",
              mSeq [mClassPlus isAlnumCI, mClassStar isPySpace,
                    mClassPlus isDigitC, mLit false ".", mClassPlus isDigitC,
                    mClassStar isAsciiLetter]],
        mBound]

/-! ## `extract_vehicle_data` (src/app.py lines 55-102) -/

/-- The per-request extraction result: one optional normalized value per
configured field (the six keys of the Python result dictionary). -/
structure VehicleData where
  brand : Option String
  model : Option String
  generation : Option String
  engine : Option String
  engine_code : Option String
  type : Option String
deriving DecidableEq, Repr

/-- Python truthiness of an optional string: `None` and `""` are falsy. -/
def isTruthy : Option String → Bool
  | none => false
  | some s => !s.isEmpty

/-- The all-`None` result returned by the triage short-circuit. -/
def noneData : VehicleData :=
  ⟨none, none, none, none, none, none⟩

/-- The configured non-vehicle keyword list (src/app.py line 61). -/
def nonVehicleKeywords : List String :=
  ["shirt", "book", "phone", "laptop", "jacket", "toy"]

/-- Does `n` occur as a leading block of `h`? -/
def leadsWith : List Char → List Char → Bool
  | [], _ => true
  | _ :: _, [] => false
  | a :: as_, b :: bs => a == b && leadsWith as_ bs

/-- Python's `n in h` on strings: contiguous-substring occurrence. -/
def containsSeq (n : List Char) : List Char → Bool
  | [] => leadsWith n []
  | c :: t => leadsWith n (c :: t) || containsSeq n t

/-- Python's `str.lower` over a whole string (ASCII model). -/
def strLower (s : String) : String := ⟨s.data.map lowerC⟩

/-- Worker for `str.split()`: accumulates the current word (reversed) and
emits the maximal non-whitespace runs. -/
def wordsGo : List Char → List Char → List String
  | cur, [] => if cur.isEmpty then [] else [⟨cur.reverse⟩]
  | cur, c :: cs =>
    if isPySpace c then
      if cur.isEmpty then wordsGo [] cs else ⟨cur.reverse⟩ :: wordsGo [] cs
    else wordsGo (c :: cur) cs

/-- The `title.split()`: whitespace-delimited words, empties discarded. -/
def pyWords (s : String) : List String :=
  wordsGo [] s.data

/-- Primary pass: for each configured field, the first case-insensitive
match of its pattern, fed through `normalize_text` (src/app.py lines
75-78). -/
def primaryPass (title : String) : VehicleData where
  brand := (reSearch brandPat title).bind (fun g => normalize_text (some g))
  model := (reSearch modelPat title).bind (fun g => normalize_text (some g))
  generation := (reSearch generationPat title).bind (fun g => normalize_text (some g))
  engine := (reSearch enginePat title).bind (fun g => normalize_text (some g))
  engine_code := (reSearch engineCodePat title).bind (fun g => normalize_text (some g))
  type := (reSearch typePat title).bind (fun g => normalize_text (some g))

/-- Anchored full-string match (Python `re.match(r'^…$', w)`; the words
tested never contain a newline, so `$` is end-of-string). -/
def fullMatch (m : Mt) (s : String) : Bool :=
  (m s.data 0 (fun j => if j == s.data.length then some j else none)).isSome

/-- Fallback brand shape `^[A-Z][a-zA-Z]+$` (case-sensitive). -/
def brandShape (w : String) : Bool :=
  match w.data with
  | [] => false
  | c :: cs => ('A' ≤ c && c ≤ 'Z') && !cs.isEmpty && cs.all isAsciiLetter

/-- Fallback model shape `^[A-Z0-9-]+$` (case-sensitive). -/
def modelShape (w : String) : Bool :=
  !w.data.isEmpty && w.data.all (fun c => isUpperDigit c || c == '-')

/-- Fallback type shape `^[A-Z0-9]+\s*\d+\.\d+[A-Za-z]*$` (case-sensitive,
backtracking as in Python). -/
def typeShape (w : String) : Bool :=
  fullMatch (mSeq [mClassPlus isUpperDigit, mClassStar isPySpace,
                   mClassPlus isDigitC, mLit false ".", mClassPlus isDigitC,
                   mClassStar isAsciiLetter]) w

/-- Fallback engine shape `^\d+\.\d+$`. -/
def engineShape (w : String) : Bool :=
  fullMatch (mSeq [mClassPlus isDigitC, mLit false ".", mClassPlus isDigitC]) w

/-- Fallback engine-code shape `^[A-Z0-9]{3,6}$`. -/
def codeShape (w : String) : Bool :=
  3 ≤ w.data.length && w.data.length ≤ 6 && w.data.all isUpperDigit

/-- The word a fallback iteration tests for the type shape: the current
word, paired with the next word when one exists (src/app.py lines 91-92).-/
def typeCandidate (words : List String) (i : Nat) (w : String) : String :=
  match words.get? (i + 1) with
  | some nxt => w ++ " " ++ nxt
  | none => w

/-- One iteration of the fallback `for i, word in enumerate(words)` loop
(src/app.py lines 83-98): an `elif` chain, each branch guarded by the
field still being falsy. -/
def fallbackStep (words : List String) (i : Nat) (w : String) (r : VehicleData) :
    VehicleData :=
  if !isTruthy r.brand && brandShape w then
    { r with brand := normalize_text (some w) }
  else if (isTruthy r.brand || decide (0 < i)) && !isTruthy r.model && modelShape w then
    { r with model := normalize_text (some w) }
  else if !isTruthy r.type && typeShape (typeCandidate words i w) then
    { r with type := normalize_text (some (typeCandidate words i w)) }
  else if !isTruthy r.engine && engineShape w then
    { r with engine := normalize_text (some w) }
  else if !isTruthy r.engine_code && codeShape w then
    { r with engine_code := normalize_text (some w) }
  else r

/-- The fallback loop over the enumerated words. -/
def fallbackLoop (words : List String) : Nat → List String → VehicleData → VehicleData
  | _, [], r => r
  | i, w :: ws, r => fallbackLoop words (i + 1) ws (fallbackStep words i w r)

/-- Fallback pass: runs only when brand, model or type is still falsy
after the primary pass (src/app.py line 81). -/
def fallbackPass (title : String) (r : VehicleData) : VehicleData :=
  if isTruthy r.brand && isTruthy r.model && isTruthy r.type then r
  else fallbackLoop (pyWords title) 0 (pyWords title) r

/-- The `extract_vehicle_data` (src/app.py lines 55-102): triage on empty or
non-vehicle titles, then the primary pattern pass, then the fallback. -/
def extract_vehicle_data (title : String) : VehicleData :=
  if title.data.isEmpty
     || nonVehicleKeywords.any (fun kw => containsSeq kw.data (strLower title).data) then
    noneData
  else
    fallbackPass title (primaryPass title)

/-! ## The catalog and `get_vehicle_tags` (src/app.py lines 17-42, 104-139) -/

/-- One row of the `Vehicle` table.  `brand`, `model` and `engine_code`
are `nullable=False` columns, the rest are nullable. -/
structure Vehicle where
  brand : String
  model : String
  generation : Option String
  engine_code : String
  engine_name : Option String
  fuel_type : Option String
  displacement : Option String
  power : Option String
  type : Option String
deriving DecidableEq, Repr

/-- SQL `LIKE` with `%` and `_` wildcards, with explicit fuel (every
recursive call shrinks `p.length + v.length`, so `likeL` supplies enough
fuel for the fuel case `0` to be unreachable). -/
def likeFuel : Nat → List Char → List Char → Bool
  | 0, _, _ => false
  | _ + 1, [], v => v.isEmpty
  | fuel + 1, c :: p, v =>
    if c = '%' then
      likeFuel fuel p v ||
        (match v with
         | [] => false
         | _ :: v2 => likeFuel fuel (c :: p) v2)
    else if c = '_' then
      (match v with
       | [] => false
       | _ :: v2 => likeFuel fuel p v2)
    else
      (match v with
       | [] => false
       | d :: v2 => c == d && likeFuel fuel p v2)

/-- SQL `LIKE` with `%` and `_` wildcards (case already folded by the
caller).  `ilike` patterns here are extraction values, but the wildcard
semantics of `LIKE` is modelled faithfully. -/
def likeL (p v : List Char) : Bool :=
  likeFuel (p.length + v.length + 1) p v

/-- The `column.ilike(pattern)`: case-insensitive `LIKE` (ASCII fold, as in
SQLite / Postgres `ILIKE`). -/
def ilike (pattern value : String) : Bool :=
  likeL (pattern.data.map lowerC) (value.data.map lowerC)

/-- The `Vehicle.query.filter(...).first()` lookup: the first row whose
`brand`, `model` and `type` columns all `ilike`-match the extracted
values; a `NULL` `type` column never matches (SQL three-valued logic). -/
def findVehicle (catalog : List Vehicle) (b m t : String) : Option Vehicle :=
  catalog.find? (fun v =>
    ilike b v.brand && ilike m v.model &&
      (match v.type with
       | some ty => ilike t ty
       | none => false))

/-- The `tags.add(s)` on a Python `set`, realised as append-if-absent. -/
def addTag (l : List String) (s : String) : List String :=
  if s ∈ l then l else l ++ [s]

/-- The `tags.add(s)` guarded by Python truthiness `if s:` (skips `""`). -/
def addStrTag (l : List String) (s : String) : List String :=
  if s.isEmpty then l else addTag l s

/-- The `tags.add(o)` guarded by `if o:` (skips `None` and `""`). -/
def addOptTag (l : List String) (o : Option String) : List String :=
  match o with
  | some s => addStrTag l s
  | none => l

/-- The tag composition for a matched record (src/app.py lines 124-137).
The `type` column is rendered as Python would (`None` prints as "None" in
the f-string); the lookup filter guarantees the column is present on every
record this is applied to. -/
def vehicleTags (v : Vehicle) : List String :=
  let ty : String := match v.type with
    | some t => t
    | none => "None"
  let l5 := addTag (addTag (addTag (addTag (addTag [] v.brand) v.model) ty)
    (v.brand ++ " " ++ v.model)) (v.brand ++ " " ++ v.model ++ " " ++ ty)
  addOptTag (addOptTag (addOptTag (addStrTag l5 v.engine_code) v.fuel_type)
    v.displacement) v.generation

/-- The normal-form invariant the `ExtractionResult` data model promises
for every present value: only word characters and single spaces remain
after `normalize_text` (in particular no SQL `LIKE` wildcard `%`). -/
def normedStr (s : String) : Bool :=
  s.data.all (fun c => isWordChar c || c == ' ')

/-- The `get_vehicle_tags` (src/app.py lines 104-139).  The catalog argument
is `Except Unit` so that an infrastructure fault during the query (a
raised exception in Python) is observable: the required-field guard
returns before the query, so a missing field yields `.ok []` even on a
faulted catalog, while a lookup on a faulted catalog propagates the
fault. -/
def get_vehicle_tags (db : Except Unit (List Vehicle)) (vd : VehicleData) :
    Except Unit (List String) :=
  match vd.brand, vd.model, vd.type with
  | some b, some m, some t =>
    if b.isEmpty || m.isEmpty || t.isEmpty then Except.ok []
    else
      db.bind (fun catalog =>
        Except.ok
          (match findVehicle catalog b m t with
           | some v => vehicleTags v
           | none => []))
  | _, _, _ => Except.ok []

/-- Decidable equality for `Except`, used to evaluate the embedded
functions on concrete inputs. -/
instance {ε α : Type} [DecidableEq ε] [DecidableEq α] : DecidableEq (Except ε α)
  | Except.error e, Except.error f =>
    if h : e = f then isTrue (by rw [h])
    else isFalse (fun q => by cases q; exact h rfl)
  | Except.error _, Except.ok _ => isFalse (fun q => by cases q)
  | Except.ok _, Except.error _ => isFalse (fun q => by cases q)
  | Except.ok a, Except.ok b =>
    if h : a = b then isTrue (by rw [h])
    else isFalse (fun q => by cases q; exact h rfl)

/-- The sample catalog seeded at start-up (src/app.py lines 35-40), in
table order. -/
def sampleCatalog : List Vehicle :=
  [⟨"BMW", "3 Series", some "MK5", "N47", some "2.0L Diesel", some "Diesel",
    some "2.0L", some "184HP", some "E90 320d"⟩,
   ⟨"BMW", "3 Series", some "MK5", "N52", some "2.5L Petrol", some "Petrol",
    some "2.5L", some "218HP", some "E90 325i"⟩,
   ⟨"Audi", "A4", some "B8", "CAGA", some "2.0L TDI", some "Diesel",
    some "2.0L", some "143HP", some "B8 2.0 TDI"⟩,
   ⟨"Mercedes", "C-Class", some "W204", "OM651", some "2.2L Diesel", some "Diesel",
    some "2.2L", some "170HP", some "W204 220 CDI"⟩]

/-! ## `handle_product_create` (src/app.py lines 216-263)

The webhook route.  The inbound HTTP request is modelled with its parsed
JSON body and its signature header; the handler of the source reads only
the body — it performs no signature verification of any kind.  Outbound
Shopify calls are recorded as a dispatch trace (the source issues them
sequentially and they are outside the modelled core); an exception raised
by the catalog query is caught by the route's generic `except Exception`
handler, producing the 500 "Internal server error" response. -/

/-- The parsed webhook JSON body: `{"id": …, "title": …}`.  A missing
`id` key is `none`. -/
structure ProductPayload where
  id : Option Nat
  title : Option String
deriving DecidableEq, Repr

/-- An inbound webhook request.  `payload` is `request.get_json()`
(`none` for a falsy/absent body); `hmacHeader` is the
`X-Shopify-Hmac-SHA256` header the sender may attach — the source never
reads it. -/
structure WebhookRequest where
  payload : Option ProductPayload
  hmacHeader : Option String
deriving DecidableEq

/-- The outbound Shopify calls the route makes, in order. -/
inductive DispatchCall where
  | updateProduct (productId : Nat) (tags : List String)
  | ensureCollection (title : String) (tag : String)
  | addToCollection (productId : Nat)
deriving DecidableEq, Repr

/-- The HTTP responses the route can produce. -/
inductive WebhookResponse where
  | success (tags : List String)
  | invalidRequest
  | internalError
deriving DecidableEq, Repr

/-- The collection reconciliation loop (src/app.py lines 250-254): one
`create_or_update_collection` + `add_product_to_collection` pair per tag
containing a space. -/
def collectionCalls (pid : Nat) (tags : List String) : List DispatchCall :=
  (tags.filter (fun t => t.data.contains ' ')).foldr
    (fun t acc => DispatchCall.ensureCollection (t ++ " Parts") t
      :: DispatchCall.addToCollection pid :: acc) []

/-- The `handle_product_create` (src/app.py lines 216-263): returns the HTTP
response together with the trace of outbound calls. -/
def handle_product_create (db : Except Unit (List Vehicle)) (req : WebhookRequest) :
    WebhookResponse × List DispatchCall :=
  match req.payload with
  | none => (WebhookResponse.invalidRequest, [])
  | some data =>
    match data.id with
    | none => (WebhookResponse.invalidRequest, [])
    | some pid =>
      let title := data.title.getD ""
      let vd := extract_vehicle_data title
      match get_vehicle_tags db vd with
      | Except.error _ => (WebhookResponse.internalError, [])
      | Except.ok tags =>
        if tags.isEmpty then (WebhookResponse.success tags, [])
        else
          (WebhookResponse.success tags,
           DispatchCall.updateProduct pid tags :: collectionCalls pid tags)

/-! # Theorems for the claims -/

/-- Claim C1, counterexample.  A webhook request carrying **no** signature
header (and with no shared secret configured anywhere in the service) is
processed in full: the payload is parsed, the title is extracted, the
catalog is read (the response tags are built from catalog rows) and the
outbound dispatch calls are issued.  The claim's required hard stop on
failed verification does not exist in the code. -/
theorem webhook_no_auth_cx :
    handle_product_create (Except.ok sampleCatalog)
        ⟨some ⟨some 42, some "BMW 3 Series E90 320d"⟩, none⟩ =
      (WebhookResponse.success ["BMW", "3 Series", "E90 320d", "BMW 3 Series",
         "BMW 3 Series E90 320d", "N47", "Diesel", "2.0L", "MK5"],
       [DispatchCall.updateProduct 42 ["BMW", "3 Series", "E90 320d", "BMW 3 Series",
          "BMW 3 Series E90 320d", "N47", "Diesel", "2.0L", "MK5"],
        DispatchCall.ensureCollection "3 Series Parts" "3 Series",
        DispatchCall.addToCollection 42,
        DispatchCall.ensureCollection "E90 320d Parts" "E90 320d",
        DispatchCall.addToCollection 42,
        DispatchCall.ensureCollection "BMW 3 Series Parts" "BMW 3 Series",
        DispatchCall.addToCollection 42,
        DispatchCall.ensureCollection "BMW 3 Series E90 320d Parts" "BMW 3 Series E90 320d",
        DispatchCall.addToCollection 42]) := by
  decide

/-- Claim C1, amended: the webhook handler performs no signature
verification at all — its response and its outbound dispatch trace are
entirely independent of the signature header attached to the request, so
a missing or invalid signature never halts the pipeline. -/
theorem webhook_ignores_signature (db : Except Unit (List Vehicle))
    (p : Option ProductPayload) (h1 h2 : Option String) :
    handle_product_create db ⟨p, h1⟩ = handle_product_create db ⟨p, h2⟩ := rfl

/-- Claim C2, counterexample.  This is the spec's own scenario: the title
"Audi A4 B8 2.0 TDI CAGA" extracts all three required fields, the catalog
lookup finds no row (the normalized type "b8 2 0 tdi" does not match the
stored "B8 2.0 TDI", whose dot was collapsed away by normalization), and
`get_vehicle_tags` returns the **empty** tag set — not the composite tags
built from the extraction that the claim requires. -/
theorem notfound_tags_cx :
    (let d := extract_vehicle_data "Audi A4 B8 2.0 TDI CAGA"
     isTruthy d.brand = true ∧ isTruthy d.model = true ∧ isTruthy d.type = true ∧
       findVehicle sampleCatalog "audi" "a4" "b8 2 0 tdi" = none ∧
       get_vehicle_tags (Except.ok sampleCatalog) d = Except.ok []) := by
  decide

/-- Claim C2, amended: when the required fields are all present but the
catalog lookup finds no matching record, `get_vehicle_tags` returns the
**empty** tag set — it does not degrade to extraction-derived composite
tags. -/
theorem notfound_tags_empty (catalog : List Vehicle) (d : VehicleData)
    (b m t : String) (hb : d.brand = some b) (hm : d.model = some m)
    (ht : d.type = some t) (hbe : b.isEmpty = false) (hme : m.isEmpty = false)
    (hte : t.isEmpty = false) (hfind : findVehicle catalog b m t = none) :
    get_vehicle_tags (Except.ok catalog) d = Except.ok [] := by
  simp [get_vehicle_tags, hb, hm, ht, hbe, hme, hte, Except.bind, hfind]

/-- Witness for `notfound_tags_empty`: the extraction of the Audi title
against an empty catalog. -/
theorem notfound_tags_empty_w :
    get_vehicle_tags (Except.ok [])
        ⟨some "audi", some "a4", some "b8", some "2 0 tdi", some "caga",
         some "b8 2 0 tdi"⟩ =
      Except.ok [] :=
  notfound_tags_empty [] _ "audi" "a4" "b8 2 0 tdi" rfl rfl rfl rfl rfl rfl rfl

/-- Claim C3: if any required field (brand, model, type) is `None` or
empty, `get_vehicle_tags` returns the empty tag set **without touching the
catalog** — the conclusion holds for every catalog argument, including the
faulted one `Except.error ()`, which would propagate a fault if it were
read. -/
theorem required_guard (db : Except Unit (List Vehicle)) (d : VehicleData)
    (h : isTruthy d.brand = false ∨ isTruthy d.model = false ∨
         isTruthy d.type = false) :
    get_vehicle_tags db d = Except.ok [] := by
  rcases d with ⟨b, m, g, e, ec, t⟩
  cases b with
  | none => rfl
  | some sb =>
    cases m with
    | none => rfl
    | some sm =>
      cases t with
      | none => rfl
      | some st =>
        rcases h with h | h | h
        · have h2 : sb.isEmpty = true := by simpa [isTruthy] using h
          simp [get_vehicle_tags, h2]
        · have h2 : sm.isEmpty = true := by simpa [isTruthy] using h
          simp [get_vehicle_tags, h2]
        · have h2 : st.isEmpty = true := by simpa [isTruthy] using h
          simp [get_vehicle_tags, h2]

/-- Witness for `required_guard`: an all-`None` extraction against the
faulted catalog still yields the empty tag set (so no read occurred). -/
theorem required_guard_w :
    get_vehicle_tags (Except.error ()) noneData = Except.ok [] :=
  required_guard (Except.error ()) noneData (Or.inl rfl)

/-- A catalog fault propagates out of `get_vehicle_tags` whenever the
required fields are present (the query is actually issued). -/
theorem getTags_error_of_required (d : VehicleData) (b m t : String)
    (hb : d.brand = some b) (hm : d.model = some m) (ht : d.type = some t)
    (hbe : b.isEmpty = false) (hme : m.isEmpty = false) (hte : t.isEmpty = false) :
    get_vehicle_tags (Except.error ()) d = Except.error () := by
  simp [get_vehicle_tags, hb, hm, ht, hbe, hme, hte, Except.bind]

/-- Claim C8, counterexample.  A catalog fault during the lookup for a
fully-extracted title does **not** degrade to `NotFound`-style processing:
the exception escapes `get_vehicle_tags`, is caught by the route's generic
handler, and the request is aborted with the 500 internal-error response
and no dispatch — where the claim requires a success response produced by
continuing the pipeline. -/
theorem catalog_fault_cx :
    handle_product_create (Except.error ())
        ⟨some ⟨some 7, some "Audi A4 B8 2.0 TDI CAGA"⟩, some "sig"⟩ =
      (WebhookResponse.internalError, []) := by
  decide

/-- Claim C8, amended: when the catalog lookup itself fails on a request
whose extraction has all required fields, the pipeline **aborts** with the
500 internal-error response and performs no dispatch, instead of
continuing with `NotFound`-equivalent tag derivation. -/
theorem catalog_fault_aborts (req : WebhookRequest) (data : ProductPayload)
    (pid : Nat) (b m t : String) (hp : req.payload = some data)
    (hid : data.id = some pid)
    (hb : (extract_vehicle_data (data.title.getD "")).brand = some b)
    (hm : (extract_vehicle_data (data.title.getD "")).model = some m)
    (ht : (extract_vehicle_data (data.title.getD "")).type = some t)
    (hbe : b.isEmpty = false) (hme : m.isEmpty = false) (hte : t.isEmpty = false) :
    handle_product_create (Except.error ()) req =
      (WebhookResponse.internalError, []) := by
  rcases req with ⟨pl, hh⟩
  cases hp
  simp only [handle_product_create, hid,
    getTags_error_of_required _ b m t hb hm ht hbe hme hte]

/-- Witness for `catalog_fault_aborts`. -/
theorem catalog_fault_aborts_w :
    handle_product_create (Except.error ())
        ⟨some ⟨some 9, some "BMW 3 Series E90 320d"⟩, none⟩ =
      (WebhookResponse.internalError, []) :=
  catalog_fault_aborts _ _ 9 "bmw" "3 series" "e90 320d" rfl rfl
    (by decide) (by decide) (by decide) rfl rfl rfl

/-- Claim C9: an empty title, or one containing a configured non-vehicle
keyword as a case-insensitive substring, short-circuits extraction — the
result has every field `None` and neither the pattern pass nor the
fallback pass runs. -/
theorem triage_short_circuit (title : String)
    (h : (title.data.isEmpty
          || nonVehicleKeywords.any
               (fun kw => containsSeq kw.data (strLower title).data)) = true) :
    extract_vehicle_data title = noneData := by
  simp [extract_vehicle_data, h]

/-- Witness for `triage_short_circuit`: the spec's scenario title
"Wool Jacket Size L" (keyword "jacket"). -/
theorem triage_short_circuit_w :
    extract_vehicle_data "Wool Jacket Size L" = noneData :=
  triage_short_circuit "Wool Jacket Size L" (by decide)

/-- Claim C5, counterexample.  Normalization is **not** idempotent on the
punctuation-only input `"-"`: the first application yields the empty
string, whose re-normalization is `None`. -/
theorem normalize_idem_cx :
    normalize_text (normalize_text (some "-")) ≠ normalize_text (some "-") := by
  decide

/-- Claim C6, counterexample.  The underscore is a word character for the
source's `\W`-based collapsing, so `normalize` keeps `"a_b"` intact, while
the claim's "runs of non-alphanumeric characters collapsed to a single
space" would turn it into `"a b"`. -/
theorem normalize_alnum_cx :
    normalize_text (some "a_b") ≠ some (claimNormalize "a_b") ∧
      normalize_text (some "a_b") = some "a_b" ∧ claimNormalize "a_b" = "a b" := by
  decide

/-! ## Tag-set lemmas (for claims C7 and C10) -/

/-- Membership after a `set.add`. -/
theorem mem_addTag {l : List String} {s x : String} :
    x ∈ addTag l s ↔ x ∈ l ∨ x = s := by
  unfold addTag
  split
  · rename_i hmem
    constructor
    · exact Or.inl
    · rintro (hx | rfl)
      · exact hx
      · exact hmem
  · simp [List.mem_append]

/-- The added element is a member. -/
theorem mem_addTag_self {l : List String} {s : String} : s ∈ addTag l s :=
  mem_addTag.2 (Or.inr rfl)

/-- Previous members stay members. -/
theorem mem_addTag_mono {l : List String} {s x : String} (h : x ∈ l) :
    x ∈ addTag l s :=
  mem_addTag.2 (Or.inl h)

/-- The `set.add` keeps the tag list duplicate-free. -/
theorem addTag_nodup {l : List String} {s : String} (h : l.Nodup) :
    (addTag l s).Nodup := by
  unfold addTag
  split
  · exact h
  · rename_i hmem
    refine List.Nodup.append h (List.nodup_singleton s) ?_
    intro a ha hs
    rw [List.mem_singleton] at hs
    subst hs
    exact hmem ha

/-- Any predicate holding on the members and the added element holds after
the add. -/
theorem addTag_forall {P : String → Prop} {l : List String} {s : String}
    (hl : ∀ t ∈ l, P t) (hs : P s) : ∀ t ∈ addTag l s, P t := by
  intro t ht
  rcases mem_addTag.1 ht with h | rfl
  · exact hl t h
  · exact hs

/-- Membership after a truthiness-guarded add. -/
theorem mem_addStrTag_elim {l : List String} {s x : String}
    (h : x ∈ addStrTag l s) : x ∈ l ∨ x = s := by
  unfold addStrTag at h
  split at h
  · exact Or.inl h
  · exact mem_addTag.1 h

/-- Previous members survive a truthiness-guarded add. -/
theorem mem_addStrTag_mono {l : List String} {s x : String} (h : x ∈ l) :
    x ∈ addStrTag l s := by
  unfold addStrTag
  split
  · exact h
  · exact mem_addTag_mono h

/-- A truthiness-guarded add keeps the list duplicate-free. -/
theorem addStrTag_nodup {l : List String} {s : String} (h : l.Nodup) :
    (addStrTag l s).Nodup := by
  unfold addStrTag
  split
  · exact h
  · exact addTag_nodup h

/-- Predicate preservation across a truthiness-guarded add. -/
theorem addStrTag_forall {P : String → Prop} {l : List String} {s : String}
    (hl : ∀ t ∈ l, P t) (hs : s.isEmpty = false → P s) :
    ∀ t ∈ addStrTag l s, P t := by
  unfold addStrTag
  split
  · exact hl
  · rename_i he
    exact addTag_forall hl (hs (Bool.not_eq_true _ ▸ Bool.of_not_eq_true he))

/-- Membership after an optional guarded add. -/
theorem mem_addOptTag_elim {l : List String} {o : Option String} {x : String}
    (h : x ∈ addOptTag l o) : x ∈ l ∨ o = some x := by
  cases o with
  | none => exact Or.inl h
  | some s =>
    rcases mem_addStrTag_elim h with h | rfl
    · exact Or.inl h
    · exact Or.inr rfl

/-- Previous members survive an optional guarded add. -/
theorem mem_addOptTag_mono {l : List String} {o : Option String} {x : String}
    (h : x ∈ l) : x ∈ addOptTag l o := by
  cases o with
  | none => exact h
  | some s => exact mem_addStrTag_mono h

/-- An optional guarded add keeps the list duplicate-free. -/
theorem addOptTag_nodup {l : List String} {o : Option String} (h : l.Nodup) :
    (addOptTag l o).Nodup := by
  cases o with
  | none => exact h
  | some s => exact addStrTag_nodup h

/-- Predicate preservation across an optional guarded add. -/
theorem addOptTag_forall {P : String → Prop} {l : List String} {o : Option String}
    (hl : ∀ t ∈ l, P t) (ho : ∀ s, o = some s → s.isEmpty = false → P s) :
    ∀ t ∈ addOptTag l o, P t := by
  cases o with
  | none => exact hl
  | some s => exact addStrTag_forall hl (ho s rfl)

/-- A string whose `isEmpty` test fails is not the empty string. -/
theorem ne_empty_of_isEmpty_false {s : String} (h : s.isEmpty = false) :
    s ≠ "" := by
  intro hs
  subst hs
  exact absurd h (by decide)

/-- A string with a space spliced into the middle is never empty. -/
theorem append_space_ne {a b : String} : a ++ " " ++ b ≠ "" := by
  intro h
  have hd := congrArg String.data h
  simp only [String.data_append] at hd
  simp at hd

/-- A lowercased character is `%` only if it was `%`. -/
theorem lowerC_percent {c : Char} (h : lowerC c = '%') : c = '%' := by
  unfold lowerC at h
  split at h <;> first | exact h | exact absurd h (by decide)

/-- Word characters and spaces never lowercase to the wildcard `%`. -/
theorem normed_lower_ne_percent {c : Char} (h : (isWordChar c || c == ' ') = true) :
    lowerC c ≠ '%' := by
  intro hp
  have hc := lowerC_percent hp
  subst hc
  exact absurd h (by decide)

/-- A nonempty `LIKE` pattern without `%` matches no empty value. -/
theorem like_val_nonempty {p v : List Char} (hp : p ≠ [])
    (hnp : ∀ c ∈ p, c ≠ '%') (h : likeL p v = true) : v ≠ [] := by
  intro hv
  subst hv
  rcases p with _ | ⟨c, p'⟩
  · exact hp rfl
  · have hc := hnp c (List.mem_cons_self c p')
    unfold likeL at h
    simp only [likeFuel] at h
    rw [if_neg hc] at h
    simp at h

/-- A nonempty normalized pattern `ilike`-matches only nonempty column
values. -/
theorem ilike_val_ne {pattern value : String} (hp : pattern.isEmpty = false)
    (hn : normedStr pattern = true) (h : ilike pattern value = true) :
    value ≠ "" := by
  intro hv
  subst hv
  unfold ilike at h
  have hpd : pattern.data.map lowerC ≠ [] := by
    simp only [ne_eq, List.map_eq_nil_iff]
    intro h0
    exact ne_empty_of_isEmpty_false hp (String.ext h0)
  have hnp : ∀ c ∈ pattern.data.map lowerC, c ≠ '%' := by
    intro c hcmem
    rcases List.mem_map.1 hcmem with ⟨c0, hc0, rfl⟩
    exact normed_lower_ne_percent (by
      have := (List.all_eq_true.mp hn) c0 hc0
      simpa using this)
  exact absurd rfl (like_val_nonempty hpd hnp h)

/-- The filter predicate facts carried by a successful catalog lookup. -/
theorem findVehicle_props {cat : List Vehicle} {b m t : String} {v : Vehicle}
    (hf : findVehicle cat b m t = some v) :
    ilike b v.brand = true ∧ ilike m v.model = true ∧
      ∃ ty, v.type = some ty ∧ ilike t ty = true := by
  have hpred := List.find?_some hf
  simp only [Bool.and_eq_true] at hpred
  obtain ⟨⟨h1, h2⟩, h3⟩ := hpred
  refine ⟨h1, h2, ?_⟩
  cases hvt : v.type with
  | none => rw [hvt] at h3; exact absurd h3 (by simp)
  | some ty => rw [hvt] at h3; exact ⟨ty, rfl, h3⟩

/-- The derived tag list is always duplicate-free. -/
theorem vehicleTags_nodup (v : Vehicle) : (vehicleTags v).Nodup := by
  cases hvt : v.type <;>
    simp only [vehicleTags, hvt] <;>
    exact addOptTag_nodup (addOptTag_nodup (addOptTag_nodup (addStrTag_nodup
      (addTag_nodup (addTag_nodup (addTag_nodup (addTag_nodup (addTag_nodup
        List.nodup_nil))))))))

/-- With nonempty key fields, every derived tag is nonempty. -/
theorem vehicleTags_ne_empty (v : Vehicle) (hb : v.brand ≠ "")
    (hm : v.model ≠ "") (ht : ∀ ty, v.type = some ty → ty ≠ "") :
    ∀ t ∈ vehicleTags v, t ≠ "" := by
  cases hvt : v.type with
  | none =>
    simp only [vehicleTags, hvt]
    refine addOptTag_forall (addOptTag_forall (addOptTag_forall (addStrTag_forall
      (addTag_forall (addTag_forall (addTag_forall (addTag_forall (addTag_forall
        (by simp) hb) hm) (by decide)) append_space_ne) append_space_ne)
      (fun he => ne_empty_of_isEmpty_false he))
      (fun s _ he => ne_empty_of_isEmpty_false he))
      (fun s _ he => ne_empty_of_isEmpty_false he))
      (fun s _ he => ne_empty_of_isEmpty_false he)
  | some ty =>
    simp only [vehicleTags, hvt]
    refine addOptTag_forall (addOptTag_forall (addOptTag_forall (addStrTag_forall
      (addTag_forall (addTag_forall (addTag_forall (addTag_forall (addTag_forall
        (by simp) hb) hm) (ht ty hvt)) append_space_ne) append_space_ne)
      (fun he => ne_empty_of_isEmpty_false he))
      (fun s _ he => ne_empty_of_isEmpty_false he))
      (fun s _ he => ne_empty_of_isEmpty_false he))
      (fun s _ he => ne_empty_of_isEmpty_false he)

/-- The record's brand is always among the derived tags. -/
theorem mem_vehicleTags_brand (v : Vehicle) : v.brand ∈ vehicleTags v := by
  cases hvt : v.type <;>
    simp only [vehicleTags, hvt] <;>
    exact mem_addOptTag_mono (mem_addOptTag_mono (mem_addOptTag_mono
      (mem_addStrTag_mono (mem_addTag_mono (mem_addTag_mono (mem_addTag_mono
        (mem_addTag_mono mem_addTag_self)))))))

/-- The record's model is always among the derived tags. -/
theorem mem_vehicleTags_model (v : Vehicle) : v.model ∈ vehicleTags v := by
  cases hvt : v.type <;>
    simp only [vehicleTags, hvt] <;>
    exact mem_addOptTag_mono (mem_addOptTag_mono (mem_addOptTag_mono
      (mem_addStrTag_mono (mem_addTag_mono (mem_addTag_mono (mem_addTag_mono
        mem_addTag_self))))))

/-- The record's type value is always among the derived tags. -/
theorem mem_vehicleTags_type (v : Vehicle) {ty : String}
    (hvt : v.type = some ty) : ty ∈ vehicleTags v := by
  simp only [vehicleTags, hvt]
  exact mem_addOptTag_mono (mem_addOptTag_mono (mem_addOptTag_mono
    (mem_addStrTag_mono (mem_addTag_mono (mem_addTag_mono mem_addTag_self)))))

/-- The lookup path of `get_vehicle_tags` on a found record. -/
theorem getTags_found {cat : List Vehicle} {d : VehicleData} {b m t : String}
    {v : Vehicle} (hb : d.brand = some b) (hm : d.model = some m)
    (ht : d.type = some t) (hbe : b.isEmpty = false) (hme : m.isEmpty = false)
    (hte : t.isEmpty = false) (hf : findVehicle cat b m t = some v) :
    get_vehicle_tags (Except.ok cat) d = Except.ok (vehicleTags v) := by
  simp [get_vehicle_tags, hb, hm, ht, hbe, hme, hte, Except.bind, hf]

/-- Claim C7: for every catalog state and extraction whose present values
are normalized, a successfully derived tag list has no duplicates and no
empty values, and the composite tags built from a matched record appear
only together with their constituent single-field tags. -/
theorem tagset_invariants (db : Except Unit (List Vehicle)) (d : VehicleData)
    (ts : List String)
    (hnb : ∀ s, d.brand = some s → normedStr s = true)
    (hnm : ∀ s, d.model = some s → normedStr s = true)
    (hnt : ∀ s, d.type = some s → normedStr s = true)
    (h : get_vehicle_tags db d = Except.ok ts) :
    ts.Nodup ∧ (∀ t ∈ ts, t ≠ "") ∧
      (∀ cat v b m t, db = Except.ok cat → d.brand = some b →
        d.model = some m → d.type = some t →
        findVehicle cat b m t = some v →
        ((v.brand ++ " " ++ v.model) ∈ ts → v.brand ∈ ts ∧ v.model ∈ ts) ∧
        (∀ ty, v.type = some ty →
          (v.brand ++ " " ++ v.model ++ " " ++ ty) ∈ ts → ty ∈ ts)) := by
  rcases d with ⟨ob, om, og, oe, oec, ot⟩
  cases ob with
  | none =>
    cases h
    exact ⟨List.nodup_nil, by simp, fun cat v b m t _ hb => by cases hb⟩
  | some b0 =>
    cases om with
    | none =>
      cases h
      exact ⟨List.nodup_nil, by simp, fun cat v b m t _ _ hm => by cases hm⟩
    | some m0 =>
      cases ot with
      | none =>
        cases h
        exact ⟨List.nodup_nil, by simp, fun cat v b m t _ _ _ ht => by cases ht⟩
      | some t0 =>
        simp only [get_vehicle_tags] at h
        split at h
        · cases h
          exact ⟨List.nodup_nil, by simp, fun cat v b m t _ _ _ _ _ =>
            ⟨by simp, fun ty _ => by simp⟩⟩
        · rename_i hcond
          have hbe : b0.isEmpty = false := by
            rcases Bool.or_eq_false_iff.mp (Bool.of_not_eq_true hcond) with ⟨h1, _⟩
            exact (Bool.or_eq_false_iff.mp h1).1
          have hme : m0.isEmpty = false := by
            rcases Bool.or_eq_false_iff.mp (Bool.of_not_eq_true hcond) with ⟨h1, _⟩
            exact (Bool.or_eq_false_iff.mp h1).2
          have hte : t0.isEmpty = false :=
            (Bool.or_eq_false_iff.mp (Bool.of_not_eq_true hcond)).2
          cases db with
          | error e =>
            simp [Except.bind] at h
          | ok cat0 =>
            simp only [Except.bind] at h
            cases hf : findVehicle cat0 b0 m0 t0 with
            | none =>
              rw [hf] at h
              cases h
              exact ⟨List.nodup_nil, by simp, fun cat v b m t _ _ _ _ _ =>
                ⟨by simp, fun ty _ => by simp⟩⟩
            | some v0 =>
              rw [hf] at h
              cases h
              obtain ⟨hlb, hlm, ty0, hty0, hlt⟩ := findVehicle_props hf
              refine ⟨vehicleTags_nodup v0, ?_, ?_⟩
              · exact vehicleTags_ne_empty v0
                  (ilike_val_ne hbe (hnb b0 rfl) hlb)
                  (ilike_val_ne hme (hnm m0 rfl) hlm)
                  (fun ty hty => by
                    rw [hty0] at hty
                    cases hty
                    exact ilike_val_ne hte (hnt t0 rfl) hlt)
              · intro cat v b m t hdb hb hm ht hf2
                cases hdb
                cases hb
                cases hm
                cases ht
                rw [hf] at hf2
                cases hf2
                exact ⟨fun _ => ⟨mem_vehicleTags_brand v0, mem_vehicleTags_model v0⟩,
                  fun ty hty _ => mem_vehicleTags_type v0 hty⟩

/-- Witness for `tagset_invariants`: the BMW extraction against the sample
catalog; the conjunction is instantiated and every hypothesis is
discharged by evaluation. -/
theorem tagset_invariants_w :
    (["BMW", "3 Series", "E90 320d", "BMW 3 Series", "BMW 3 Series E90 320d",
      "N47", "Diesel", "2.0L", "MK5"] : List String).Nodup :=
  (tagset_invariants (Except.ok sampleCatalog)
    ⟨some "bmw", some "3 series", none, none, none, some "e90 320d"⟩ _
    (by decide) (by decide) (by decide) (by decide)).1

/-- Claim C10: when the lookup finds a record, the emitted tags are built
verbatim from the record's stored field values (original catalog casing);
every emitted tag is one of the record's own field values or a composite
of them, and the extraction values only steer the case-insensitive
lookup. -/
theorem found_tags_from_record (cat : List Vehicle) (d : VehicleData)
    (b m t : String) (v : Vehicle) (ty : String)
    (hb : d.brand = some b) (hm : d.model = some m) (ht : d.type = some t)
    (hbe : b.isEmpty = false) (hme : m.isEmpty = false) (hte : t.isEmpty = false)
    (hf : findVehicle cat b m t = some v) (hty : v.type = some ty) :
    get_vehicle_tags (Except.ok cat) d = Except.ok (vehicleTags v) ∧
      ∀ s ∈ vehicleTags v,
        s ∈ [v.brand, v.model, ty, v.brand ++ " " ++ v.model,
             v.brand ++ " " ++ v.model ++ " " ++ ty, v.engine_code] ∨
          v.fuel_type = some s ∨ v.displacement = some s ∨
            v.generation = some s := by
  refine ⟨getTags_found hb hm ht hbe hme hte hf, ?_⟩
  intro s hs
  simp only [vehicleTags, hty] at hs
  rcases mem_addOptTag_elim hs with hs | hgen
  · rcases mem_addOptTag_elim hs with hs | hdis
    · rcases mem_addOptTag_elim hs with hs | hfuel
      · rcases mem_addStrTag_elim hs with hs | rfl
        · rcases mem_addTag.1 hs with hs | rfl
          · rcases mem_addTag.1 hs with hs | rfl
            · rcases mem_addTag.1 hs with hs | rfl
              · rcases mem_addTag.1 hs with hs | rfl
                · rcases mem_addTag.1 hs with hs | rfl
                  · cases hs
                  · exact Or.inl (by simp)
                · exact Or.inl (by simp)
              · exact Or.inl (by simp)
            · exact Or.inl (by simp)
          · exact Or.inl (by simp)
        · exact Or.inl (by simp)
      · exact Or.inr (Or.inl hfuel)
    · exact Or.inr (Or.inr (Or.inl hdis))
  · exact Or.inr (Or.inr (Or.inr hgen))

/-- Witness for `found_tags_from_record`: the lowercase normalized
extraction finds the first sample row and the emitted tags carry the
record's original casing ("BMW", "Diesel", …), not the extraction's. -/
theorem found_tags_from_record_w :
    get_vehicle_tags (Except.ok sampleCatalog)
        ⟨some "bmw", some "3 series", none, none, none, some "e90 320d"⟩ =
      Except.ok (vehicleTags ⟨"BMW", "3 Series", some "MK5", "N47",
        some "2.0L Diesel", some "Diesel", some "2.0L", some "184HP",
        some "E90 320d"⟩) :=
  (found_tags_from_record sampleCatalog _ "bmw" "3 series" "e90 320d" _
    "E90 320d" rfl rfl rfl rfl rfl rfl (by decide) rfl).1

/-! ## Normalizer lemmas (for claims C5 and C6)

The central fact is `strip_collapse_eq`: stripping the `\W+`-collapsed
text is the same as joining the maximal word runs with single spaces.
From it the characterization (claim C6, amended) and the idempotence on
non-degenerate inputs (claim C5, amended) both follow. -/

/-- ASCII lowering preserves word-character-ness. -/
theorem lower_word (c : Char) : isWordChar (lowerC c) = isWordChar c := by
  unfold lowerC
  split <;> rfl

/-- ASCII lowering is idempotent. -/
theorem lowerC_idem (c : Char) : lowerC (lowerC c) = lowerC c := by
  have h : lowerC c = c ∨ lowerC c ∈ ['a','b','c','d','e','f','g','h','i','j',
      'k','l','m','n','o','p','q','r','s','t','u','v','w','x','y','z'] := by
    unfold lowerC
    split <;> first | exact Or.inl rfl | (right; decide)
  rcases h with h | h
  · rw [h]; exact h
  · simp only [List.mem_cons, List.not_mem_nil, or_false] at h
    rcases h with h|h|h|h|h|h|h|h|h|h|h|h|h|h|h|h|h|h|h|h|h|h|h|h|h|h <;>
      rw [h] <;> decide

/-- Word characters are not whitespace. -/
theorem word_not_space {c : Char} (h : isWordChar c = true) :
    isPySpace c = false := by
  by_contra hs
  have hs' : isPySpace c = true := by
    cases hx : isPySpace c
    · exact absurd hx hs
    · rfl
  simp only [isPySpace, Bool.or_eq_true, beq_iff_eq] at hs'
  rcases hs' with ((((rfl | rfl) | rfl) | rfl) | rfl) | rfl <;>
    exact absurd h (by decide)

/-- A leading space disappears under `strip`. -/
theorem pyStrip_cons_space (X : List Char) : pyStrip (' ' :: X) = pyStrip X := by
  unfold pyStrip
  rw [List.dropWhile_cons_of_pos (by decide)]

/-- The `strip` fixes a list containing no whitespace. -/
theorem pyStrip_of_no_space {X : List Char}
    (h : ∀ x ∈ X, isPySpace x = false) : pyStrip X = X := by
  have h1 : X.dropWhile isPySpace = X := by
    cases X with
    | nil => rfl
    | cons c cs => exact List.dropWhile_cons_of_neg (by simp [h c (List.mem_cons_self c cs)])
  have h2 : X.reverse.dropWhile isPySpace = X.reverse := by
    cases hx : X.reverse with
    | nil => rfl
    | cons c cs =>
      refine List.dropWhile_cons_of_neg ?_
      have hc : c ∈ X := by
        have : c ∈ X.reverse := by rw [hx]; exact List.mem_cons_self c cs
        simpa [List.mem_reverse] using this
      simp [h c hc]
  unfold pyStrip
  rw [h1, h2, List.reverse_reverse]

/-- Trailing trim of an append splits off the prefix when the suffix does
not trim away completely. -/
theorem trimR_append {A B : List Char}
    (h : B.reverse.dropWhile isPySpace ≠ []) :
    ((A ++ B).reverse.dropWhile isPySpace).reverse =
      A ++ (B.reverse.dropWhile isPySpace).reverse := by
  rw [List.reverse_append, List.dropWhile_append,
    if_neg (by simpa [List.isEmpty_iff] using h), List.reverse_append,
    List.reverse_reverse]

/-- A list headed by a non-space character does not trim (from the right)
to the empty list. -/
theorem trimR_ne_of_head {e : Char} {X : List Char} (he : isPySpace e = false) :
    (e :: X).reverse.dropWhile isPySpace ≠ [] := by
  rw [List.reverse_cons, List.dropWhile_append]
  split
  · rw [List.dropWhile_cons_of_neg (by simp [he])]
    simp
  · simp

/-- The collapse worker copies a leading word run unchanged. -/
theorem collapseGo_word_prefix (w rest : List Char)
    (hw : ∀ c ∈ w, isWordChar c = true) :
    collapseGo false (w ++ rest) = w ++ collapseGo false rest := by
  induction w with
  | nil => rfl
  | cons c w ih =>
    have hc := hw c (List.mem_cons_self c w)
    have step : collapseGo false ((c :: w) ++ rest) =
        c :: collapseGo false (w ++ rest) := by
      rw [List.cons_append]
      simp [collapseGo, hc]
    rw [step, ih (fun x hx => hw x (List.mem_cons_of_mem c hx)), List.cons_append]

/-- Inside a replaced run, the collapse worker is the collapse of the text
with the remaining non-word prefix removed. -/
theorem collapseGo_true_eq (cs : List Char) :
    collapseGo true cs = collapseL (cs.dropWhile (fun d => !isWordChar d)) := by
  induction cs with
  | nil => rfl
  | cons c cs ih =>
    by_cases h : isWordChar c = true
    · rw [List.dropWhile_cons_of_neg (by simp [h])]
      simp [collapseGo, collapseL, h]
    · rw [List.dropWhile_cons_of_pos (by simp [h])]
      have h1 : collapseGo true (c :: cs) = collapseGo true cs := by
        simp [collapseGo, h]
      rw [h1, ih]

/-- Word runs ignore a leading non-word prefix. -/
theorem wordRuns_skip (cs : List Char) :
    wordRuns (cs.dropWhile (fun d => !isWordChar d)) = wordRuns cs := by
  induction cs with
  | nil => rfl
  | cons c cs ih =>
    by_cases h : isWordChar c = true
    · rw [List.dropWhile_cons_of_neg (by simp [h])]
    · rw [List.dropWhile_cons_of_pos (by simp [h]), ih]
      exact (by simp [wordRuns, h] : wordRuns (c :: cs) = wordRuns cs).symm

/-- The `takeWhile` keeps a list all of whose members satisfy the test. -/
theorem takeWhile_all {p : Char → Bool} {l : List Char}
    (h : ∀ x ∈ l, p x = true) : l.takeWhile p = l := by
  induction l with
  | nil => rfl
  | cons c cs ih =>
    rw [List.takeWhile_cons_of_pos (h c (List.mem_cons_self c cs))]
    rw [ih (fun x hx => h x (List.mem_cons_of_mem c hx))]

/-- The `dropWhile` empties a list all of whose members satisfy the test. -/
theorem dropWhile_all {p : Char → Bool} {l : List Char}
    (h : ∀ x ∈ l, p x = true) : l.dropWhile p = [] := by
  induction l with
  | nil => rfl
  | cons c cs ih =>
    rw [List.dropWhile_cons_of_pos (h c (List.mem_cons_self c cs))]
    exact ih (fun x hx => h x (List.mem_cons_of_mem c hx))

/-- Every word run is a nonempty all-word-character list. -/
theorem wordRuns_all :
    ∀ (n : Nat) (l : List Char), l.length ≤ n →
      ∀ t ∈ wordRuns l, t ≠ [] ∧ ∀ c ∈ t, isWordChar c = true := by
  intro n
  induction n with
  | zero =>
    intro l hl
    have : l = [] := List.length_eq_zero.mp (Nat.le_zero.mp hl)
    subst this
    simp [wordRuns]
  | succ n ih =>
    intro l hl
    cases l with
    | nil => simp [wordRuns]
    | cons c cs =>
      by_cases hw : isWordChar c = true
      · intro t ht
        rw [show wordRuns (c :: cs) =
            ((c :: cs).takeWhile isWordChar) :: wordRuns ((c :: cs).dropWhile isWordChar)
          from by simp [wordRuns, hw]] at ht
        rcases List.mem_cons.1 ht with rfl | ht
        · constructor
          · rw [List.takeWhile_cons_of_pos hw]
            simp
          · intro x hx
            exact List.mem_takeWhile_imp hx
        · have hlen : ((c :: cs).dropWhile isWordChar).length ≤ n := by
            rw [List.dropWhile_cons_of_pos hw]
            exact le_trans (List.dropWhile_sublist _).length_le
              (Nat.le_of_succ_le_succ hl)
          exact ih _ hlen t ht
      · intro t ht
        rw [show wordRuns (c :: cs) = wordRuns cs from by simp [wordRuns, hw]] at ht
        exact ih cs (Nat.le_of_succ_le_succ hl) t ht

/-- A nonempty space-free list with one trailing space strips to itself. -/
theorem pyStrip_append_space {X : List Char} (hX : X ≠ [])
    (h : ∀ x ∈ X, isPySpace x = false) : pyStrip (X ++ [' ']) = X := by
  unfold pyStrip
  have h1 : (X ++ [' ']).dropWhile isPySpace = X ++ [' '] := by
    obtain ⟨c, cs, rfl⟩ : ∃ c cs, X = c :: cs := by
      cases X with
      | nil => exact absurd rfl hX
      | cons c cs => exact ⟨c, cs, rfl⟩
    rw [List.cons_append]
    exact List.dropWhile_cons_of_neg (by simp [h c (List.mem_cons_self c cs)])
  rw [h1]
  have h2 : (X ++ [' ']).reverse = ' ' :: X.reverse := by simp
  rw [h2, List.dropWhile_cons_of_pos (by decide)]
  have h3 : X.reverse.dropWhile isPySpace = X.reverse := by
    cases hx : X.reverse with
    | nil => rfl
    | cons d ds =>
      refine List.dropWhile_cons_of_neg ?_
      have hd : d ∈ X := by
        have : d ∈ X.reverse := by rw [hx]; exact List.mem_cons_self d ds
        simpa [List.mem_reverse] using this
      simp [h d hd]
  rw [h3, List.reverse_reverse]

/-- Stripping distributes over a space-separated pair whose pieces start
with non-space characters. -/
theorem pyStrip_glue {w K : List Char} (hwne : w ≠ [])
    (hwns : ∀ x ∈ w, isPySpace x = false) (e : Char) (K2 : List Char)
    (hK : K = e :: K2) (he : isPySpace e = false) :
    pyStrip (w ++ ' ' :: K) = w ++ ' ' :: pyStrip K := by
  subst hK
  unfold pyStrip
  have h1 : (w ++ ' ' :: (e :: K2)).dropWhile isPySpace =
      w ++ ' ' :: (e :: K2) := by
    obtain ⟨c, cs, rfl⟩ : ∃ c cs, w = c :: cs := by
      cases w with
      | nil => exact absurd rfl hwne
      | cons c cs => exact ⟨c, cs, rfl⟩
    rw [List.cons_append]
    exact List.dropWhile_cons_of_neg (by simp [hwns c (List.mem_cons_self c cs)])
  rw [h1]
  have h4 : (e :: K2).dropWhile isPySpace = e :: K2 :=
    List.dropWhile_cons_of_neg (by simp [he])
  rw [h4]
  have hKne : (e :: K2).reverse.dropWhile isPySpace ≠ [] := trimR_ne_of_head he
  have h5 : (' ' :: (e :: K2)).reverse.dropWhile isPySpace ≠ [] := by
    rw [List.reverse_cons, List.dropWhile_append]
    split
    · rename_i hsplit
      exact absurd (by simpa [List.isEmpty_iff] using hsplit) hKne
    · simp
  rw [trimR_append (A := w) (B := ' ' :: (e :: K2)) h5]
  congr 1
  have h7 := trimR_append (A := [' ']) (B := e :: K2) hKne
  simpa using h7

/-- The central normalization identity: stripping the collapsed text is
joining the word runs with single spaces. -/
theorem strip_collapse_aux :
    ∀ (n : Nat) (l : List Char), l.length ≤ n →
      pyStrip (collapseL l) = joinSp (wordRuns l) := by
  intro n
  induction n with
  | zero =>
    intro l hl
    have : l = [] := List.length_eq_zero.mp (Nat.le_zero.mp hl)
    subst this
    simp [collapseL, collapseGo, pyStrip, wordRuns, joinSp]
  | succ n ih =>
    intro l hl
    cases l with
    | nil => simp [collapseL, collapseGo, pyStrip, wordRuns, joinSp]
    | cons c cs =>
      by_cases hw : isWordChar c = true
      · -- a word run starts the string
        have hwall : ∀ x ∈ (c :: cs).takeWhile isWordChar, isWordChar x = true :=
          fun x hx => List.mem_takeWhile_imp hx
        have hsplit : c :: cs =
            (c :: cs).takeWhile isWordChar ++ (c :: cs).dropWhile isWordChar :=
          (List.takeWhile_append_dropWhile _ _).symm
        have htake : (c :: cs).takeWhile isWordChar =
            c :: cs.takeWhile isWordChar := List.takeWhile_cons_of_pos hw
        have hdrop : (c :: cs).dropWhile isWordChar = cs.dropWhile isWordChar :=
          List.dropWhile_cons_of_pos hw
        have hcol : collapseL (c :: cs) =
            (c :: cs).takeWhile isWordChar ++
              collapseL ((c :: cs).dropWhile isWordChar) := by
          conv_lhs => rw [hsplit]
          exact collapseGo_word_prefix _ _ hwall
        have hwr : wordRuns (c :: cs) =
            ((c :: cs).takeWhile isWordChar) ::
              wordRuns ((c :: cs).dropWhile isWordChar) := by
          simp [wordRuns, hw]
        have hrlen : ((c :: cs).dropWhile isWordChar).length ≤ cs.length := by
          rw [hdrop]
          exact (List.dropWhile_sublist _).length_le
        rw [hcol, hwr]
        cases hr : (c :: cs).dropWhile isWordChar with
        | nil =>
          rw [pyStrip_of_no_space
            (fun x hx => word_not_space (hwall x (by simpa [collapseL, collapseGo] using hx)))]
          simp [wordRuns, joinSp, collapseL, collapseGo]
        | cons d r2 =>
          have hdnw : isWordChar d = false := by
            have hh := List.head?_dropWhile_not isWordChar (c :: cs)
            rw [hr] at hh
            simpa using hh
          have hclr : collapseL (d :: r2) =
              ' ' :: collapseL (r2.dropWhile (fun x => !isWordChar x)) := by
            show collapseGo false (d :: r2) = _
            simp only [collapseGo, hdnw, if_false, Bool.false_eq_true]
            rw [collapseGo_true_eq]
          have hwrr : wordRuns (d :: r2) =
              wordRuns (r2.dropWhile (fun x => !isWordChar x)) := by
            rw [show wordRuns (d :: r2) = wordRuns r2 from by simp [wordRuns, hdnw]]
            rw [wordRuns_skip]
          have hr2len : r2.length < cs.length + 1 := by
            have : (d :: r2).length ≤ cs.length := hr ▸ hrlen
            simp at this
            omega
          have hr'len : (r2.dropWhile (fun x => !isWordChar x)).length ≤ n := by
            have h1 : (r2.dropWhile (fun x => !isWordChar x)).length ≤ r2.length :=
              (List.dropWhile_sublist _).length_le
            have h2 : cs.length + 1 ≤ n + 1 := by simpa using hl
            omega
          rw [hclr, hwrr]
          have hwne : (c :: cs).takeWhile isWordChar ≠ [] := by
            rw [htake]
            simp
          have hwns : ∀ x ∈ (c :: cs).takeWhile isWordChar, isPySpace x = false :=
            fun x hx => word_not_space (hwall x hx)
          cases hr' : r2.dropWhile (fun x => !isWordChar x) with
          | nil =>
            -- only the separating space remains; it trims away
            have h0 : collapseL ([] : List Char) = [] := rfl
            rw [h0]
            rw [pyStrip_append_space hwne hwns]
            simp [wordRuns, joinSp]
          | cons e r3 =>
            have hew : isWordChar e = true := by
              have hh := List.head?_dropWhile_not (fun x => !isWordChar x) r2
              rw [hr'] at hh
              simpa using hh
            have hKshape : collapseL (e :: r3) = e :: collapseGo false r3 := by
              simp [collapseL, collapseGo, hew]
            rw [hr'] at hr'len
            have hIH : pyStrip (collapseL (e :: r3)) = joinSp (wordRuns (e :: r3)) :=
              ih _ hr'len
            rw [pyStrip_glue hwne hwns e (collapseGo false r3) hKshape
              (word_not_space hew), hIH]
            have hwrne : wordRuns (e :: r3) =
                ((e :: r3).takeWhile isWordChar) ::
                  wordRuns ((e :: r3).dropWhile isWordChar) := by
              simp [wordRuns, hew]
            rw [hwrne]
            simp [joinSp]
      · -- a non-word run starts the string
        have hcl : collapseL (c :: cs) =
            ' ' :: collapseL (cs.dropWhile (fun d => !isWordChar d)) := by
          show collapseGo false (c :: cs) = _
          simp only [collapseGo, hw, if_false, Bool.false_eq_true]
          rw [collapseGo_true_eq]
        rw [hcl, pyStrip_cons_space]
        have hlen : (cs.dropWhile (fun d => !isWordChar d)).length ≤ n :=
          le_trans (List.dropWhile_sublist _).length_le (Nat.le_of_succ_le_succ hl)
        rw [ih _ hlen, wordRuns_skip]
        rw [show wordRuns (c :: cs) = wordRuns cs from by simp [wordRuns, hw]]

/-- Wrapper of the central identity without the fuel bound. -/
theorem strip_collapse_eq (l : List Char) :
    pyStrip (collapseL l) = joinSp (wordRuns l) :=
  strip_collapse_aux l.length l le_rfl

/-- Mapping a space-fixing character function commutes with the join. -/
theorem joinSp_map (f : Char → Char) (hf : f ' ' = ' ') :
    ∀ ts : List (List Char), (joinSp ts).map f = joinSp (ts.map (List.map f))
  | [] => rfl
  | [t] => rfl
  | t :: u :: us => by
    have ih := joinSp_map f hf (u :: us)
    simp only [joinSp, List.map_append, List.map_cons, hf]
    rw [ih, List.map_cons]

/-- Rebuilding the runs of a join of nonempty all-word runs gives the runs
back. -/
theorem wordRuns_join :
    ∀ ts : List (List Char),
      (∀ t ∈ ts, t ≠ [] ∧ ∀ c ∈ t, isWordChar c = true) →
      wordRuns (joinSp ts) = ts
  | [], _ => by simp [joinSp, wordRuns]
  | [t], h => by
    obtain ⟨htne, htw⟩ := h t (List.mem_cons_self t [])
    obtain ⟨c, t2, rfl⟩ : ∃ c t2, t = c :: t2 := by
      cases t with
      | nil => exact absurd rfl htne
      | cons c t2 => exact ⟨c, t2, rfl⟩
    show wordRuns (c :: t2) = [c :: t2]
    rw [show wordRuns (c :: t2) =
        ((c :: t2).takeWhile isWordChar) :: wordRuns ((c :: t2).dropWhile isWordChar)
      from by simp [wordRuns, htw c (List.mem_cons_self c t2)]]
    rw [takeWhile_all htw, dropWhile_all htw]
    simp [wordRuns]
  | t :: u :: us, h => by
    obtain ⟨htne, htw⟩ := h t (List.mem_cons_self t (u :: us))
    obtain ⟨c, t2, rfl⟩ : ∃ c t2, t = c :: t2 := by
      cases t with
      | nil => exact absurd rfl htne
      | cons c t2 => exact ⟨c, t2, rfl⟩
    have ih := wordRuns_join (u :: us)
      (fun x hx => h x (List.mem_cons_of_mem _ hx))
    show wordRuns ((c :: t2) ++ ' ' :: joinSp (u :: us)) = (c :: t2) :: u :: us
    have hcw : isWordChar c = true := htw c (List.mem_cons_self c t2)
    have htk : ((c :: t2) ++ ' ' :: joinSp (u :: us)).takeWhile isWordChar =
        c :: t2 := by
      rw [List.takeWhile_append_of_pos htw,
        List.takeWhile_cons_of_neg (by decide), List.append_nil]
    have hdr : ((c :: t2) ++ ' ' :: joinSp (u :: us)).dropWhile isWordChar =
        ' ' :: joinSp (u :: us) := by
      rw [List.dropWhile_append_of_pos htw,
        List.dropWhile_cons_of_neg (by decide)]
    have hhead : isWordChar (((c :: t2) ++ ' ' :: joinSp (u :: us)).headD 'x') = true := by
      simp [hcw]
    rw [show wordRuns ((c :: t2) ++ ' ' :: joinSp (u :: us)) =
        (((c :: t2) ++ ' ' :: joinSp (u :: us)).takeWhile isWordChar) ::
          wordRuns (((c :: t2) ++ ' ' :: joinSp (u :: us)).dropWhile isWordChar)
      from by simp [wordRuns, hcw]]
    rw [htk, hdr]
    rw [show wordRuns (' ' :: joinSp (u :: us)) = wordRuns (joinSp (u :: us))
      from by simp [wordRuns, show isWordChar ' ' = false from by decide]]
    rw [ih]

/-- The source normalizer agrees with the spec-side run-join normal
form. -/
theorem normStr_eq_normSpec (s : String) : normStr s = normSpec s := by
  unfold normStr normSpec
  rw [strip_collapse_eq]

/-- The string kernel of the normalizer is idempotent. -/
theorem normStr_idem (s : String) : normStr (normStr s) = normStr s := by
  have h1 : normStr s = ⟨joinSp ((wordRuns s.data).map (List.map lowerC))⟩ := by
    unfold normStr
    rw [strip_collapse_eq, joinSp_map lowerC (by decide)]
  have hall : ∀ t ∈ (wordRuns s.data).map (List.map lowerC),
      t ≠ [] ∧ ∀ c ∈ t, isWordChar c = true := by
    intro t ht
    rcases List.mem_map.1 ht with ⟨t0, ht0, rfl⟩
    obtain ⟨hne, hw⟩ := wordRuns_all s.data.length s.data le_rfl t0 ht0
    refine ⟨by simpa using hne, ?_⟩
    intro c hc
    rcases List.mem_map.1 hc with ⟨c0, hc0, rfl⟩
    rw [lower_word]
    exact hw c0 hc0
  rw [h1]
  unfold normStr
  rw [strip_collapse_eq]
  show (⟨(joinSp (wordRuns (joinSp ((wordRuns s.data).map (List.map lowerC))))).map lowerC⟩ : String) = _
  rw [wordRuns_join _ hall, joinSp_map lowerC (by decide)]
  congr 1
  rw [List.map_map]
  refine congrArg joinSp (List.map_congr_left ?_)
  intro t _
  show (t.map lowerC).map lowerC = t.map lowerC
  rw [List.map_map]
  exact List.map_congr_left (fun c _ => lowerC_idem c)

/-- Claim C5, amended: normalization is idempotent on every input whose
normalization is not the empty string; only a non-empty input with no word
characters at all (normalizing to `""`, which re-normalizes to `None`)
escapes idempotence. -/
theorem normalize_text_idem (t : Option String) (h : normalize_text t ≠ some "") :
    normalize_text (normalize_text t) = normalize_text t := by
  cases t with
  | none => rfl
  | some s =>
    by_cases he : s.data.isEmpty = true
    · simp [normalize_text, he]
    · have hns : normalize_text (some s) = some (normStr s) := by
        simp [normalize_text, he]
      rw [hns]
      have hne : (normStr s).data.isEmpty = false := by
        rw [hns] at h
        cases hx : (normStr s).data.isEmpty
        · rfl
        · exfalso
          apply h
          have : (normStr s).data = [] := by
            cases hd : (normStr s).data
            · rfl
            · rw [hd] at hx; simp at hx
          exact congrArg some (String.ext this)
      simp [normalize_text, hne, normStr_idem]

/-- Witness for `normalize_text_idem`. -/
theorem normalize_text_idem_w :
    normalize_text (normalize_text (some "Audi A4!")) =
      normalize_text (some "Audi A4!") :=
  normalize_text_idem (some "Audi A4!") (by decide)

/-- Claim C6, amended: `normalize_text` returns `None` exactly on absent
or empty input, never raises, and on any other input returns the word
runs of the input (runs of non-word characters collapsing to single
separating spaces, edges trimmed) in lowercase. -/
theorem normalize_characterization (t : Option String) :
    (normalize_text t = none ↔ (t = none ∨ t = some "")) ∧
      ∀ s, t = some s → s ≠ "" → normalize_text t = some (normSpec s) := by
  constructor
  · cases t with
    | none => simp [normalize_text]
    | some s =>
      by_cases he : s.data.isEmpty = true
      · have hs : s = "" := by
          refine String.ext ?_
          cases hd : s.data
          · rfl
          · rw [hd] at he; simp at he
        simp [normalize_text, he, hs]
      · have hs : ¬s = "" := by
          intro hrfl
          subst hrfl
          exact absurd he (by decide)
        simp [normalize_text, he, hs]
  · intro s hts hne
    subst hts
    have he : s.data.isEmpty = false := by
      cases hx : s.data.isEmpty
      · rfl
      · exfalso
        apply hne
        refine String.ext ?_
        cases hd : s.data
        · rfl
        · rw [hd] at hx; simp at hx
    simp [normalize_text, he, normStr_eq_normSpec]

/-- Witness for `normalize_characterization`. -/
theorem normalize_characterization_w :
    normalize_text (some " Audi--A4_x ") = some (normSpec " Audi--A4_x ") :=
  (normalize_characterization (some " Audi--A4_x ")).2 " Audi--A4_x " rfl
    (by decide)

/-! ## Fallback-pass lemmas (for claim C4) -/

/-- A word passing the model shape test normalizes to a genuine string
value. -/
theorem normalize_of_modelShape {w : String} (h : modelShape w = true) :
    normalize_text (some w) = some (normStr w) := by
  have hne : w.data.isEmpty = false := by
    unfold modelShape at h
    simp only [Bool.and_eq_true] at h
    simpa using h.1
  simp [normalize_text, hne]

/-- One fallback iteration under a truthy brand: the brand branch is dead,
set fields are never overwritten, and the model branch commits exactly on
a model-shaped word. -/
theorem fallbackStep_facts (words : List String) (i : Nat) (w : String)
    (r : VehicleData) (hb : isTruthy r.brand = true) :
    (fallbackStep words i w r).brand = r.brand ∧
    (fallbackStep words i w r).generation = r.generation ∧
    (isTruthy r.model = true → (fallbackStep words i w r).model = r.model) ∧
    (isTruthy r.type = true → (fallbackStep words i w r).type = r.type) ∧
    (isTruthy r.engine = true → (fallbackStep words i w r).engine = r.engine) ∧
    (isTruthy r.engine_code = true →
      (fallbackStep words i w r).engine_code = r.engine_code) ∧
    (isTruthy r.model = false → modelShape w = true →
      (fallbackStep words i w r).model = some (normStr w)) ∧
    (isTruthy r.model = false → modelShape w = false →
      (fallbackStep words i w r).model = r.model) := by
  unfold fallbackStep
  rw [if_neg (by simp [hb])]
  cases hm : isTruthy r.model with
  | true =>
    rw [if_neg (by simp)]
    split_ifs <;>
      refine ⟨rfl, rfl, fun _ => rfl, ?_, ?_, ?_, ?_, ?_⟩ <;>
        (intro ha; first | rfl | simp_all)
  | false =>
    cases hsh : modelShape w with
    | true =>
      rw [if_pos (by simp [hb])]
      refine ⟨rfl, rfl, ?_, fun _ => rfl, fun _ => rfl, fun _ => rfl, ?_, ?_⟩
      · intro ha
        simp at ha
      · intro _ _
        exact normalize_of_modelShape hsh
      · intro _ hc
        simp at hc
    | false =>
      rw [if_neg (by simp)]
      split_ifs <;>
        refine ⟨rfl, rfl, ?_, ?_, ?_, ?_, ?_, fun _ _ => rfl⟩ <;>
          (intro ha; first | rfl | simp_all)

/-- An empty `isEmpty` test means the string is `""`. -/
theorem eq_empty_of_isEmpty {s : String} (h : s.isEmpty = true) : s = "" :=
  (String.isEmpty_iff s).mp h

/-- The fallback loop under a truthy brand: set fields survive, and the
final model value is the normalization of the first word in scan order
whose shape test passes and whose normalization is non-empty (with the
degenerate all-empty-normalization case yielding `""`). -/
theorem fallbackLoop_facts (words : List String) :
    ∀ (ws : List String) (i : Nat) (r : VehicleData),
      isTruthy r.brand = true →
      (fallbackLoop words i ws r).brand = r.brand ∧
      (fallbackLoop words i ws r).generation = r.generation ∧
      (isTruthy r.model = true → (fallbackLoop words i ws r).model = r.model) ∧
      (isTruthy r.type = true → (fallbackLoop words i ws r).type = r.type) ∧
      (isTruthy r.engine = true → (fallbackLoop words i ws r).engine = r.engine) ∧
      (isTruthy r.engine_code = true →
        (fallbackLoop words i ws r).engine_code = r.engine_code) ∧
      (isTruthy r.model = false →
        (fallbackLoop words i ws r).model =
          match ws.find? (fun w => modelShape w && !(normStr w).isEmpty) with
          | some w => some (normStr w)
          | none => if ws.any modelShape then some "" else r.model)
  | [], i, r, hb => by
    refine ⟨rfl, rfl, fun _ => rfl, fun _ => rfl, fun _ => rfl, fun _ => rfl, ?_⟩
    intro _
    show r.model = _
    simp
  | w :: ws, i, r, hb => by
    obtain ⟨s1, s2, s3, s4, s5, s6, s7, s8⟩ := fallbackStep_facts words i w r hb
    have hb1 : isTruthy (fallbackStep words i w r).brand = true := by
      rw [s1]; exact hb
    obtain ⟨l1, l2, l3, l4, l5, l6, l7⟩ :=
      fallbackLoop_facts words ws (i + 1) (fallbackStep words i w r) hb1
    refine ⟨l1.trans s1, l2.trans s2, ?_, ?_, ?_, ?_, ?_⟩
    · intro hm
      have hs := s3 hm
      have : isTruthy (fallbackStep words i w r).model = true := by rw [hs]; exact hm
      exact (l3 this).trans hs
    · intro ht
      have hs := s4 ht
      have : isTruthy (fallbackStep words i w r).type = true := by rw [hs]; exact ht
      exact (l4 this).trans hs
    · intro he
      have hs := s5 he
      have : isTruthy (fallbackStep words i w r).engine = true := by rw [hs]; exact he
      exact (l5 this).trans hs
    · intro hec
      have hs := s6 hec
      have : isTruthy (fallbackStep words i w r).engine_code = true := by
        rw [hs]; exact hec
      exact (l6 this).trans hs
    · intro hm
      show (fallbackLoop words (i + 1) ws (fallbackStep words i w r)).model = _
      cases hsh : modelShape w with
      | true =>
        have hstep := s7 hm hsh
        cases hne : (normStr w).isEmpty with
        | false =>
          have htr : isTruthy (fallbackStep words i w r).model = true := by
            rw [hstep]
            simp [isTruthy, hne]
          rw [List.find?_cons_of_pos _ (by simp [hsh, hne])]
          exact (l3 htr).trans hstep
        | true =>
          have hfalse : isTruthy (fallbackStep words i w r).model = false := by
            rw [hstep]
            simp [isTruthy, hne]
          have hw0 : normStr w = "" := eq_empty_of_isEmpty hne
          rw [List.find?_cons_of_neg _ (by simp [hne])]
          rw [l7 hfalse, hstep, hw0]
          cases hfind : ws.find? (fun w => modelShape w && !(normStr w).isEmpty) with
          | some w2 => rfl
          | none =>
            have hany : (w :: ws).any modelShape = true := by simp [hsh]
            rw [hany]
            simp
      | false =>
        have hstep := s8 hm hsh
        have hfalse : isTruthy (fallbackStep words i w r).model = false := by
          rw [hstep]; exact hm
        rw [List.find?_cons_of_neg _ (by simp [hsh])]
        rw [l7 hfalse, hstep]
        have hany : (w :: ws).any modelShape = ws.any modelShape := by simp [hsh]
        rw [hany]

/-- Claim C4, amended: under a brand committed by the primary pass, the
fallback never overwrites any field holding a truthy value (and never
touches brand or generation at all), and it commits the model field to the
normalization of the **first** word in left-to-right scan order passing
the model shape test with a non-empty normalization — irrespective of that
word's position relative to the brand's occurrence in the title. -/
theorem fallback_discipline (title : String) (r : VehicleData)
    (hb : isTruthy r.brand = true) :
    (fallbackPass title r).brand = r.brand ∧
    (fallbackPass title r).generation = r.generation ∧
    (isTruthy r.model = true → (fallbackPass title r).model = r.model) ∧
    (isTruthy r.type = true → (fallbackPass title r).type = r.type) ∧
    (isTruthy r.engine = true → (fallbackPass title r).engine = r.engine) ∧
    (isTruthy r.engine_code = true →
      (fallbackPass title r).engine_code = r.engine_code) ∧
    (isTruthy r.model = false →
      (fallbackPass title r).model =
        match (pyWords title).find?
            (fun w => modelShape w && !(normStr w).isEmpty) with
        | some w => some (normStr w)
        | none =>
          if (pyWords title).any modelShape then some "" else r.model) := by
  unfold fallbackPass
  split
  · rename_i hg
    refine ⟨rfl, rfl, fun _ => rfl, fun _ => rfl, fun _ => rfl, fun _ => rfl, ?_⟩
    intro hm
    simp only [Bool.and_eq_true] at hg
    rw [hg.1.2] at hm
    cases hm
  · exact fallbackLoop_facts (pyWords title) (pyWords title) 0 r hb

/-- Claim C4, counterexample.  In the title "X3 BMW" the primary pass sets
brand (from the word "BMW" at index 1) and leaves model unset; the
fallback then assigns model from the word "X3" at index **0** — a word
strictly **before** the brand's position — where the claim requires the
first qualifying word strictly after it. -/
theorem fallback_position_cx :
    (primaryPass "X3 BMW").brand = some "bmw" ∧
      (primaryPass "X3 BMW").model = none ∧
      pyWords "X3 BMW" = ["X3", "BMW"] ∧
      modelShape "X3" = true ∧
      extract_vehicle_data "X3 BMW" =
        ⟨some "bmw", some "x3", none, none, some "bmw", none⟩ ∧
      normalize_text (some "X3") = some "x3" := by
  decide

/-- Witness for `fallback_discipline`: with the primary-pass result of
"X3 BMW" (brand committed, model unset) the fallback commits model to
"x3", the normalization of the first model-shaped word. -/
theorem fallback_discipline_w :
    (fallbackPass "X3 BMW" ⟨some "bmw", none, none, none, none, none⟩).model =
      some "x3" := by
  have h := (fallback_discipline "X3 BMW"
    ⟨some "bmw", none, none, none, none, none⟩ (by decide)).2.2.2.2.2.2 (by decide)
  rw [h]
  decide
